import Mathlib

/-!
Verification of the redwood repository fragment: the caching helpers
`cache` and `cacheLatest` from
`src/packages/cli/src/commands/experimental/setup/serverFile/serverFile.js`,
and the release-candidate version reporter from
`src/tasks/getLatestVersions.js`.

The JavaScript is shallowly embedded: each function becomes a pure Lean
function over an explicit store state plus an environment describing the
behaviour of the external collaborators (the memjs cache client, the ORM
`model` object, the package registry).  Exceptions become `Except` values
and the JS `try`/`catch` structure becomes explicit branching that follows
the source control flow, including the fact that an exception raised inside
an inner `catch` block is caught by the enclosing outer `try`.
-/

/-- Model of a JSON-serializable JavaScript value, the domain of values the
`cache` helper stores ("as long as it can survive JSON.stringify ->
JSON.parse", per the source comment).  Numbers are modelled as integers;
arrays and objects are omitted since no claim depends on compound value
structure. -/
inductive JVal where
  | null
  | bool (b : Bool)
  | num (n : Int)
  | str (s : String)
deriving DecidableEq, Repr

/-- JavaScript truthiness of a `JVal`, as used by `data || (await input())`
in the source: `null`, `false`, `0` and the empty string are falsy. -/
def jsTruthy : JVal → Bool
  | .null => false
  | .bool b => b
  | .num n => n != 0
  | .str s => s != ""

/-- Escaping of string contents performed by `JSON.stringify`: the quote and
the backslash characters are preceded by a backslash. -/
def escapeChars : List Char → List Char
  | [] => []
  | c :: rest =>
    (if c = '"' ∨ c = '\\' then ['\\', c] else [c]) ++ escapeChars rest

/-- Model of `JSON.stringify` on the modelled value domain. -/
def stringifyJ : JVal → String
  | .null => "null"
  | .bool b => if b then "true" else "false"
  | .num n => toString n
  | .str s => ⟨'"' :: (escapeChars s.data ++ ['"'])⟩

/-- Parse the body of a JSON string literal: everything after the opening
quote, expecting the closing quote to be the final character. -/
def parseStrBody : List Char → Option (List Char)
  | [] => none
  | c :: rest =>
    if c = '\\' then
      match rest with
      | [] => none
      | d :: rest2 => (parseStrBody rest2).map (d :: ·)
    else if c = '"' then
      if rest.isEmpty then some [] else none
    else
      (parseStrBody rest).map (c :: ·)

/-- Parse a nonempty all-digit character list as a natural number. -/
def parseNatChars (cs : List Char) : Option Nat :=
  if cs.isEmpty then none
  else if cs.all (fun c => c.isDigit) then
    some (cs.foldl (fun a c => a * 10 + (c.toNat - 48)) 0)
  else none

/-- Parse an optionally minus-signed digit list as an integer. -/
def parseIntChars : List Char → Option Int
  | [] => none
  | c :: rest =>
    if c = '-' then (parseNatChars rest).map (fun m => -(m : Int))
    else (parseNatChars (c :: rest)).map (fun m => (m : Int))

/-- Model of `JSON.parse` on the texts produced by `stringifyJ`; returns
`none` where `JSON.parse` would throw. -/
def parseChars (cs : List Char) : Option JVal :=
  if cs = "null".data then some .null
  else if cs = "true".data then some (.bool true)
  else if cs = "false".data then some (.bool false)
  else
    match cs with
    | [] => none
    | c :: rest =>
      if c = '"' then (parseStrBody rest).map (fun l => .str ⟨l⟩)
      else (parseIntChars (c :: rest)).map .num

/-- Model of `JSON.parse` applied to a stored cache text. -/
def parseJ (s : String) : Option JVal :=
  parseChars s.data

/-- The external memjs key-value store: a list of
`(key, serialized text, optional expiration seconds)` entries, most recent
first. -/
structure Store where
  entries : List (String × String × Option Nat)
deriving DecidableEq, Repr

/-- Model of `memjs.get`: the stored text under `k`, or `none` for a cache
miss (memjs returns `{ value: null }`). -/
def Store.get (st : Store) (k : String) : Option String :=
  (st.entries.find? (fun e => e.1 == k)).map (fun e => e.2.1)

/-- Model of `memjs.set key text (options or empty)`: prepends the new
entry, shadowing any previous entry for the same key. -/
def Store.set (st : Store) (k v : String) (exp : Option Nat) : Store :=
  ⟨(k, v, exp) :: st.entries⟩

/-- The console lines the helpers emit, in source order. -/
inductive LogEntry where
  | hit (key : String)
  | miss (key : String)
  | errSet
  | errGet
  | errLatest
deriving DecidableEq, Repr

/-- Failure behaviour of the external memjs client during one `cache` call:
whether the read step (import, client creation, `get`) throws and whether
the `set` call throws. -/
structure CacheEnv where
  getThrows : Bool
  setThrows : Bool
deriving DecidableEq, Repr

/-- Observable outcome of one `cache` call: the returned (or propagated)
value, the resulting store, how many times the producer was invoked, and
the console log. -/
structure CacheOut where
  ret : Except String JVal
  store : Store
  calls : Nat
  log : List LogEntry
deriving Repr

/-- Shallow embedding of the source `cache` function.  `input n` is the
outcome of the producer's `n`-th invocation within this call (the source
can invoke it up to three times).  The branch structure mirrors the nested
`try`/`catch` of the source:

* read step throws: outer catch logs the GET error and returns `input()`;
* stored value present: log HIT and return `JSON.parse` of it; a parse
  failure is an exception inside the outer `try`, so the outer catch logs
  the GET error and returns `input()`;
* cache miss: log MISS, invoke the producer; if it throws, the inner catch
  logs the SET error and evaluates `data || (await input())` with `data`
  undefined, so the producer runs again, and if that throws too the outer
  catch runs it a third time;
* producer succeeded but `memjs.set` throws: the inner catch logs the SET
  error and returns `data || (await input())`, which is `data` only when
  the computed value is truthy;
* no failure: write the serialized value and return it. -/
def cache (key : String) (input : Nat → Except String JVal)
    (options : Option Nat) (env : CacheEnv) (st : Store) : CacheOut :=
  if env.getThrows then
    { ret := input 0, store := st, calls := 1, log := [.errGet] }
  else
    match st.get key with
    | some stored =>
      match parseJ stored with
      | some v => { ret := .ok v, store := st, calls := 0, log := [.hit key] }
      | none =>
        { ret := input 0, store := st, calls := 1, log := [.hit key, .errGet] }
    | none =>
      match input 0 with
      | .error _ =>
        match input 1 with
        | .ok v =>
          { ret := .ok v, store := st, calls := 2, log := [.miss key, .errSet] }
        | .error _ =>
          { ret := input 2, store := st, calls := 3,
            log := [.miss key, .errSet, .errGet] }
      | .ok v =>
        if env.setThrows then
          if jsTruthy v then
            { ret := .ok v, store := st, calls := 1, log := [.miss key, .errSet] }
          else
            match input 1 with
            | .ok v2 =>
              { ret := .ok v2, store := st, calls := 2, log := [.miss key, .errSet] }
            | .error _ =>
              { ret := input 2, store := st, calls := 3,
                log := [.miss key, .errSet, .errGet] }
        else
          { ret := .ok v, store := st.set key (stringifyJ v) options,
            calls := 1, log := [.miss key] }

example :
    (cache "x" (fun _ => .ok (.num 42)) none ⟨false, false⟩ ⟨[]⟩).ret
      = .ok (.num 42) := rfl

example :
    (cache "x" (fun _ => .ok (.num 42)) none ⟨false, false⟩ ⟨[]⟩).store.get "x"
      = some "42" := rfl

/-- A filter/condition object handed to an ORM operation, modelled as the
field-name/value pairs of the JS object literal. -/
abbrev Cond := List (String × JVal)

/-- The projection `select \x7b id: true, updatedAt: true \x7d` of the probe
query's result record; `updatedAt` is already the epoch-milliseconds value
produced by `Date.prototype.getTime`. -/
structure LatestRec where
  id : Nat
  updatedAt : Nat
deriving DecidableEq, Repr

/-- Outcome of the probe query `model.findFirst(\x7b ...conditions, orderBy:
\x7b updatedAt: 'desc' \x7d, select: ... \x7d)`: it may throw, find a record, or
find none (Prisma returns `null`, on which the subsequent `latest.id`
access throws). -/
inductive ProbeResult where
  | throws (e : String)
  | found (r : LatestRec)
  | empty
deriving DecidableEq, Repr

/-- Behaviour of the external ORM `model` object during one `cacheLatest`
call: the probe result for a given condition object, and the outcome of the
`n`-th execution of `model[queryFunction](conditions)` in this call. -/
structure OrmEnv where
  findFirstLatest : Cond → ProbeResult
  run : String → Cond → Nat → Except String JVal

/-- The derived cache key `` `${key}-${latest.id}-${latest.updatedAt.getTime()}` ``. -/
def derivedKey (key : String) (r : LatestRec) : String :=
  key ++ "-" ++ toString r.id ++ "-" ++ toString r.updatedAt

/-- Observable outcome of one `cacheLatest` call: the returned (or
propagated) value, the resulting store, how many times
`model[queryFunction](conditions)` was executed, the final value of the
source's `cacheKey` variable, and the console log. -/
structure CLOut where
  ret : Except String JVal
  store : Store
  runCalls : Nat
  usedKey : String
  log : List LogEntry
deriving Repr

/-- Shallow embedding of the source `cacheLatest` function.  `query` is the
entry list of the JS query object; as in the source, only
`Object.keys(query)[0]` and its value are consulted (for an empty object
the JS property lookups yield `undefined`, modelled by the defaults).  On a
successful probe the call delegates to `cache` under the derived key with
`model[queryFunction](conditions)` as the producer; if the probe throws or
returns no record, the catch block logs the error and issues the operation
directly, outside any `try`, so a failure of that direct call is returned
(propagated) rather than caught. -/
def cacheLatest (key : String) (options : Option Nat)
    (query : List (String × Cond)) (orm : OrmEnv) (cenv : CacheEnv)
    (st : Store) : CLOut :=
  let queryFunction := ((query.head?).map Prod.fst).getD "undefined"
  let conditions := ((query.head?).map Prod.snd).getD []
  match orm.findFirstLatest conditions with
  | .found r =>
    let ck := derivedKey key r
    let out := cache ck (fun n => orm.run queryFunction conditions n) options cenv st
    { ret := out.ret, store := out.store, runCalls := out.calls,
      usedKey := ck, log := out.log }
  | .throws _ =>
    { ret := orm.run queryFunction conditions 0, store := st, runCalls := 1,
      usedKey := key, log := [.errLatest] }
  | .empty =>
    { ret := orm.run queryFunction conditions 0, store := st, runCalls := 1,
      usedKey := key, log := [.errLatest] }

/-- The `dist-tags` object of a registry metadata response. -/
structure DistTags where
  rc : Option String
deriving DecidableEq, Repr

/-- Parsed registry metadata for one package: whether a `dist-tags` object
is present, and within it an optional `rc` tag. -/
structure PkgInfo where
  distTags : Option DistTags
deriving DecidableEq, Repr

/-- One console line of the version reporter loop body. -/
inductive VReport where
  | rcVersion (pkg ver : String)
  | noRc (pkg : String)
  | fetchError (pkg msg : String)
deriving DecidableEq, Repr

/-- Shallow embedding of one iteration of the loop in
`src/tasks/getLatestVersions.js`: query the registry for `pkg` (the
`execSync` plus `JSON.parse` step, whose failure the surrounding
`try`/`catch` converts into an error line), then report the `rc` dist-tag
when `packageInfo['dist-tags'] && packageInfo['dist-tags'].rc` is truthy
(an empty-string tag is falsy in JS). -/
def processPackage (info : String → Except String PkgInfo) (pkg : String) :
    VReport :=
  match info pkg with
  | .error msg => .fetchError pkg msg
  | .ok pi =>
    match pi.distTags with
    | some dt =>
      match dt.rc with
      | some ver => if ver != "" then .rcVersion pkg ver else .noRc pkg
      | none => .noRc pkg
    | none => .noRc pkg

/-- Shallow embedding of the `for (const packageName of workspacePackages)`
loop of `main`: the packages are processed strictly in order, one at a
time. -/
def getLatestVersionsMain (info : String → Except String PkgInfo) :
    List String → List VReport
  | [] => []
  | p :: ps => processPackage info p :: getLatestVersionsMain info ps

example :
    getLatestVersionsMain
      (fun p => if p = "b" then .error "boom"
                else .ok ⟨some ⟨some "7.0.0-rc.1"⟩⟩)
      ["a", "b"]
      = [.rcVersion "a" "7.0.0-rc.1", .fetchError "b" "boom"] := rfl

theorem digitChar_isDigit {m : Nat} (h : m < 10) : (Nat.digitChar m).isDigit := by
  interval_cases m <;> decide

theorem digitChar_toNat {m : Nat} (h : m < 10) : (Nat.digitChar m).toNat = m + 48 := by
  interval_cases m <;> decide

theorem isDigit_ne_dash {c : Char} (h : c.isDigit) : c ≠ '-' := by
  intro hc
  rw [hc] at h
  exact absurd h (by decide)

theorem toDigitsCore_shift (fuel : Nat) :
    ∀ (n : Nat) (ds : List Char),
      Nat.toDigitsCore 10 fuel n ds = Nat.toDigitsCore 10 fuel n [] ++ ds := by
  induction fuel with
  | zero => intro n ds; simp [Nat.toDigitsCore]
  | succ f ih =>
    intro n ds
    simp only [Nat.toDigitsCore]
    by_cases h : n / 10 = 0
    · simp [h]
    · rw [if_neg h, if_neg h, ih (n / 10) (Nat.digitChar (n % 10) :: ds),
        ih (n / 10) [Nat.digitChar (n % 10)]]
      simp

theorem toDigitsCore_digits (fuel : Nat) :
    ∀ (n : Nat) (ds : List Char), (∀ c ∈ ds, c.isDigit) →
      ∀ c ∈ Nat.toDigitsCore 10 fuel n ds, c.isDigit := by
  induction fuel with
  | zero => intro n ds hds; simpa [Nat.toDigitsCore] using hds
  | succ f ih =>
    intro n ds hds c hc
    simp only [Nat.toDigitsCore] at hc
    by_cases h : n / 10 = 0
    · rw [if_pos h] at hc
      rcases List.mem_cons.1 hc with rfl | hmem
      · exact digitChar_isDigit (Nat.mod_lt _ (by norm_num))
      · exact hds c hmem
    · rw [if_neg h] at hc
      refine ih (n / 10) _ ?_ c hc
      intro c' hc'
      rcases List.mem_cons.1 hc' with rfl | hmem
      · exact digitChar_isDigit (Nat.mod_lt _ (by norm_num))
      · exact hds c' hmem

theorem toDigitsCore_ne_nil (fuel : Nat) :
    ∀ (n : Nat) (ds : List Char), ds ≠ [] → Nat.toDigitsCore 10 fuel n ds ≠ [] := by
  induction fuel with
  | zero => intro n ds h; simpa [Nat.toDigitsCore] using h
  | succ f ih =>
    intro n ds h
    simp only [Nat.toDigitsCore]
    by_cases h10 : n / 10 = 0
    · simp [h10]
    · rw [if_neg h10]
      exact ih _ _ (by simp)

theorem toDigits_ne_nil (n : Nat) : Nat.toDigits 10 n ≠ [] := by
  simp only [Nat.toDigits, Nat.toDigitsCore]
  by_cases h10 : n / 10 = 0
  · simp [h10]
  · rw [if_neg h10]
    exact toDigitsCore_ne_nil _ _ _ (by simp)

theorem toDigitsCore_val (fuel : Nat) :
    ∀ n : Nat, n < fuel →
      (Nat.toDigitsCore 10 fuel n []).foldl
        (fun a c => a * 10 + (c.toNat - 48)) 0 = n := by
  induction fuel with
  | zero => intro n h; omega
  | succ f ih =>
    intro n h
    simp only [Nat.toDigitsCore]
    by_cases h10 : n / 10 = 0
    · rw [if_pos h10]
      simp only [List.foldl]
      rw [digitChar_toNat (show n % 10 < 10 by omega)]
      omega
    · rw [if_neg h10, toDigitsCore_shift, List.foldl_append]
      have h1 : n / 10 < f := by
        have h2 : n / 10 < n := Nat.div_lt_self (by omega) (by norm_num)
        omega
      rw [ih (n / 10) h1]
      simp only [List.foldl]
      rw [digitChar_toNat (show n % 10 < 10 by omega)]
      omega

theorem toString_nat_data (n : Nat) : (toString n).data = Nat.toDigits 10 n := rfl

theorem parseNatChars_toDigits (n : Nat) :
    parseNatChars (Nat.toDigits 10 n) = some n := by
  have hne : (Nat.toDigits 10 n).isEmpty = false := by
    cases h : Nat.toDigits 10 n with
    | nil => exact absurd h (toDigits_ne_nil n)
    | cons a l => rfl
  have hall : (Nat.toDigits 10 n).all (fun c => c.isDigit) = true := by
    rw [List.all_eq_true]
    intro c hc
    exact toDigitsCore_digits (n + 1) n [] (by simp) c hc
  have hval : (Nat.toDigits 10 n).foldl (fun a c => a * 10 + (c.toNat - 48)) 0 = n :=
    toDigitsCore_val (n + 1) n (Nat.lt_succ_self n)
  simp [parseNatChars, hne, hall, hval]

theorem parseNatChars_toString (n : Nat) :
    parseNatChars (toString n).data = some n := by
  rw [toString_nat_data]
  exact parseNatChars_toDigits n

theorem toString_nat_digits (n : Nat) : ∀ c ∈ (toString n).data, c.isDigit := by
  intro c hc
  rw [toString_nat_data] at hc
  exact toDigitsCore_digits (n + 1) n [] (by simp) c hc

theorem toString_int_ofNat (m : Nat) : toString (Int.ofNat m) = toString m := rfl

theorem toString_int_negSucc (m : Nat) :
    toString (Int.negSucc m) = "-" ++ toString (m + 1) := rfl

theorem parseIntChars_toString_int (i : Int) :
    parseIntChars (toString i).data = some i := by
  cases i with
  | ofNat m =>
    rw [toString_int_ofNat]
    cases h : (toString m).data with
    | nil =>
      rw [toString_nat_data] at h
      exact absurd h (toDigits_ne_nil m)
    | cons c rest =>
      have hd : c.isDigit := toString_nat_digits m c (by rw [h]; exact List.mem_cons_self c rest)
      have hc : ¬ c = '-' := isDigit_ne_dash hd
      have hp : parseNatChars (c :: rest) = some m := by
        rw [← h]
        exact parseNatChars_toString m
      simp [parseIntChars, hc, hp]
  | negSucc m =>
    rw [toString_int_negSucc]
    have hdash : ("-" : String).data = ['-'] := rfl
    have hdata : ("-" ++ toString (m + 1)).data = '-' :: (toString (m + 1)).data := by
      rw [String.data_append, hdash]
      rfl
    rw [hdata]
    simp [parseIntChars, parseNatChars_toString (m + 1), Int.negSucc_eq]

theorem parseStrBody_escape (l : List Char) :
    parseStrBody (escapeChars l ++ ['"']) = some l := by
  induction l with
  | nil => rfl
  | cons c rest ih =>
    by_cases h : c = '"' ∨ c = '\\'
    · simp only [escapeChars, if_pos h, List.cons_append, List.nil_append]
      simp [parseStrBody, ih]
    · push_neg at h
      obtain ⟨h1, h2⟩ := h
      simp only [escapeChars, if_neg (by tauto : ¬(c = '"' ∨ c = '\\')),
        List.cons_append, List.nil_append]
      rw [parseStrBody.eq_def]
      simp [h1, h2, ih]

theorem toString_int_head (i : Int) :
    ∃ c rest, (toString i).data = c :: rest ∧ (c.isDigit ∨ c = '-') := by
  cases i with
  | ofNat m =>
    rw [toString_int_ofNat]
    cases h : (toString m).data with
    | nil =>
      rw [toString_nat_data] at h
      exact absurd h (toDigits_ne_nil m)
    | cons c rest =>
      exact ⟨c, rest, rfl,
        Or.inl (toString_nat_digits m c (by rw [h]; exact List.mem_cons_self c rest))⟩
  | negSucc m =>
    rw [toString_int_negSucc]
    refine ⟨'-', (toString (m + 1)).data, ?_, Or.inr rfl⟩
    rw [String.data_append]
    rfl

/-- Round trip of the modelled serialization: `JSON.parse` applied to
`JSON.stringify` output recovers the value, the property the source's cache
HIT path relies on. -/
theorem parseJ_stringifyJ (v : JVal) : parseJ (stringifyJ v) = some v := by
  cases v with
  | null => rfl
  | bool b => cases b <;> rfl
  | num n =>
    show parseChars (toString n).data = some (JVal.num n)
    obtain ⟨c, rest, hdata, hc⟩ := toString_int_head n
    have hcn : c ≠ 'n' := by
      rcases hc with h | h
      · intro he; rw [he] at h; exact absurd h (by decide)
      · rw [h]; decide
    have hct : c ≠ 't' := by
      rcases hc with h | h
      · intro he; rw [he] at h; exact absurd h (by decide)
      · rw [h]; decide
    have hcf : c ≠ 'f' := by
      rcases hc with h | h
      · intro he; rw [he] at h; exact absurd h (by decide)
      · rw [h]; decide
    have hcq : c ≠ '"' := by
      rcases hc with h | h
      · intro he; rw [he] at h; exact absurd h (by decide)
      · rw [h]; decide
    have h1 : (toString n).data ≠ "null".data := by
      rw [hdata, show ("null" : String).data = ['n', 'u', 'l', 'l'] from rfl]
      intro he
      injection he with he1 _
      exact hcn he1
    have h2 : (toString n).data ≠ "true".data := by
      rw [hdata, show ("true" : String).data = ['t', 'r', 'u', 'e'] from rfl]
      intro he
      injection he with he1 _
      exact hct he1
    have h3 : (toString n).data ≠ "false".data := by
      rw [hdata, show ("false" : String).data = ['f', 'a', 'l', 's', 'e'] from rfl]
      intro he
      injection he with he1 _
      exact hcf he1
    unfold parseChars
    rw [if_neg h1, if_neg h2, if_neg h3, hdata]
    simp only [if_neg hcq]
    rw [← hdata, parseIntChars_toString_int]
    rfl
  | str s =>
    show parseChars ('"' :: (escapeChars s.data ++ ['"'])) = some (JVal.str s)
    have h1 : ('"' :: (escapeChars s.data ++ ['"'])) ≠ "null".data := by
      rw [show ("null" : String).data = ['n', 'u', 'l', 'l'] from rfl]
      intro he
      injection he with he1 _
      exact absurd he1 (by decide)
    have h2 : ('"' :: (escapeChars s.data ++ ['"'])) ≠ "true".data := by
      rw [show ("true" : String).data = ['t', 'r', 'u', 'e'] from rfl]
      intro he
      injection he with he1 _
      exact absurd he1 (by decide)
    have h3 : ('"' :: (escapeChars s.data ++ ['"'])) ≠ "false".data := by
      rw [show ("false" : String).data = ['f', 'a', 'l', 's', 'e'] from rfl]
      intro he
      injection he with he1 _
      exact absurd he1 (by decide)
    unfold parseChars
    rw [if_neg h1, if_neg h2, if_neg h3]
    simp [parseStrBody_escape]

theorem toString_nat_inj {m n : Nat} (h : toString m = toString n) : m = n := by
  have h2 : parseNatChars (toString m).data = parseNatChars (toString n).data := by rw [h]
  rw [parseNatChars_toString, parseNatChars_toString] at h2
  exact Option.some.inj h2

theorem toString_nat_no_dash (n : Nat) : ∀ c ∈ (toString n).data, c ≠ '-' :=
  fun c hc => isDigit_ne_dash (toString_nat_digits n c hc)

theorem append_dash_inj :
    ∀ (a a' b b' : List Char), (∀ c ∈ a, c ≠ '-') → (∀ c ∈ a', c ≠ '-') →
      a ++ '-' :: b = a' ++ '-' :: b' → a = a' ∧ b = b' := by
  intro a
  induction a with
  | nil =>
    intro a' b b' _ h2 heq
    cases a' with
    | nil => simpa using heq
    | cons x xs =>
      exfalso
      simp only [List.nil_append, List.cons_append] at heq
      injection heq with he1 _
      exact h2 x (List.mem_cons_self x xs) he1.symm
  | cons x xs ih =>
    intro a' b b' h1 h2 heq
    cases a' with
    | nil =>
      exfalso
      simp only [List.nil_append, List.cons_append] at heq
      injection heq with he1 _
      exact h1 x (List.mem_cons_self x xs) he1
    | cons y ys =>
      simp only [List.cons_append] at heq
      injection heq with he1 he2
      obtain ⟨ha, hb⟩ := ih ys b b'
        (fun c hc => h1 c (List.mem_cons_of_mem x hc))
        (fun c hc => h2 c (List.mem_cons_of_mem y hc)) he2
      exact ⟨by rw [he1, ha], hb⟩

/-- The derived cache key determines and is determined by the probe
record: for a fixed prefix, two records give the same key exactly when
both `id` and `updatedAt` agree.  The forward direction needs that the
decimal renderings contain no dash, so the two dash separators can be
located unambiguously. -/
theorem derivedKey_inj (k : String) (r r' : LatestRec) :
    derivedKey k r = derivedKey k r' ↔ r = r' := by
  constructor
  · intro h
    have hd := congrArg String.data h
    simp only [derivedKey, String.data_append,
      show ("-" : String).data = ['-'] from rfl, List.append_assoc,
      List.singleton_append] at hd
    have hd2 := List.append_cancel_left hd
    injection hd2 with _ hd3
    obtain ⟨ha, hb⟩ := append_dash_inj _ _ _ _
      (toString_nat_no_dash r.id) (toString_nat_no_dash r'.id) hd3
    have hid : r.id = r'.id := toString_nat_inj (String.ext ha)
    have hup : r.updatedAt = r'.updatedAt := toString_nat_inj (String.ext hb)
    cases r
    cases r'
    simp_all
  · intro h
    rw [h]

theorem Store.get_set (st : Store) (k v : String) (e : Option Nat) :
    (st.set k v e).get k = some v := by
  simp [Store.get, Store.set, List.find?]

/-- Claim C1: for every key, producer and options, if the cache store's
read operation throws, `cache` catches the failure, logs the GET error, and
returns the result of invoking the producer directly, with the producer
invoked exactly once and the store untouched; no cache-layer fault from the
read path reaches the caller (the only possible error in the result is the
producer's own). -/
theorem cache_get_failure_falls_back (key : String)
    (input : Nat → Except String JVal) (options : Option Nat) (env : CacheEnv)
    (st : Store) (h : env.getThrows = true) :
    cache key input options env st = ⟨input 0, st, 1, [.errGet]⟩ := by
  simp [cache, h]

theorem cache_get_failure_falls_back_witness :
    cache "posts" (fun _ => .ok (.num 42)) (some 30) ⟨true, false⟩ ⟨[]⟩
      = ⟨.ok (.num 42), ⟨[]⟩, 1, [.errGet]⟩ :=
  cache_get_failure_falls_back "posts" (fun _ => .ok (.num 42)) (some 30)
    ⟨true, false⟩ ⟨[]⟩ rfl

/-- Claim C2: with the store empty at `key` and no cache-client failure, a
first `cache` call invokes the producer once, returns its value, and writes
the serialized value to the store under `key`; an immediately following
call with the same key is a cache HIT that returns the identical
deserialized value with the producer (of either call) not invoked. -/
theorem cache_miss_populates_then_hits (key : String)
    (input input2 : Nat → Except String JVal) (options options2 : Option Nat)
    (st : Store) (v : JVal) (hmiss : st.get key = none)
    (h0 : input 0 = .ok v) :
    (cache key input options ⟨false, false⟩ st).ret = .ok v
    ∧ (cache key input options ⟨false, false⟩ st).calls = 1
    ∧ (cache key input options ⟨false, false⟩ st).store.get key
        = some (stringifyJ v)
    ∧ (cache key input2 options2 ⟨false, false⟩
        (cache key input options ⟨false, false⟩ st).store).ret = .ok v
    ∧ (cache key input2 options2 ⟨false, false⟩
        (cache key input options ⟨false, false⟩ st).store).calls = 0 := by
  have h1 : cache key input options ⟨false, false⟩ st
      = ⟨.ok v, st.set key (stringifyJ v) options, 1, [.miss key]⟩ := by
    simp [cache, hmiss, h0]
  have hget : (st.set key (stringifyJ v) options).get key = some (stringifyJ v) :=
    Store.get_set st key (stringifyJ v) options
  have h2 : cache key input2 options2 ⟨false, false⟩
        (st.set key (stringifyJ v) options)
      = ⟨.ok v, st.set key (stringifyJ v) options, 0, [.hit key]⟩ := by
    simp [cache, hget, parseJ_stringifyJ]
  rw [h1]
  exact ⟨rfl, rfl, hget, by rw [h2], by rw [h2]⟩

theorem cache_miss_populates_then_hits_witness :
    (cache "x" (fun _ => .ok (.num 42)) none ⟨false, false⟩ ⟨[]⟩).ret
        = .ok (.num 42)
    ∧ (cache "x" (fun _ => .ok (.num 42)) none ⟨false, false⟩ ⟨[]⟩).calls = 1
    ∧ (cache "x" (fun _ => .ok (.num 42)) none ⟨false, false⟩ ⟨[]⟩).store.get "x"
        = some (stringifyJ (.num 42))
    ∧ (cache "x" (fun _ => .error "second producer must not matter") none
        ⟨false, false⟩
        (cache "x" (fun _ => .ok (.num 42)) none ⟨false, false⟩ ⟨[]⟩).store).ret
        = .ok (.num 42)
    ∧ (cache "x" (fun _ => .error "second producer must not matter") none
        ⟨false, false⟩
        (cache "x" (fun _ => .ok (.num 42)) none ⟨false, false⟩ ⟨[]⟩).store).calls
        = 0 :=
  cache_miss_populates_then_hits "x" (fun _ => .ok (.num 42))
    (fun _ => .error "second producer must not matter") none none ⟨[]⟩
    (.num 42) rfl rfl

/-- Claim C3 is false on the code: the MISS-path producer invocation sits
inside the inner `try` whose `catch` both logs and re-invokes the producer.
Here, with an empty store and a producer that throws on its first
invocation and succeeds on its second, `cache` returns the second
invocation's value (no error propagates) and the producer runs twice (it is
retried). -/
theorem cache_producer_error_retried_counterexample :
    (cache "k" (fun n => if n = 0 then .error "boom" else .ok (.num 7)) none
        ⟨false, false⟩ ⟨[]⟩).ret = .ok (.num 7)
    ∧ (cache "k" (fun n => if n = 0 then .error "boom" else .ok (.num 7)) none
        ⟨false, false⟩ ⟨[]⟩).calls = 2 := ⟨rfl, rfl⟩

/-- Claim C3, amended: if the producer throws during its primary MISS-path
invocation, the surrounding inner `try`/`catch` catches the error, logs it
(as a SET error), and re-invokes the producer via `data || (await
input())`; the caller receives a value if that second invocation succeeds,
and only if it also throws does the outer catch invoke the producer a third
time and propagate that final outcome. -/
theorem cache_miss_producer_error_recovery (key : String)
    (input : Nat → Except String JVal) (options : Option Nat) (env : CacheEnv)
    (st : Store) (e : String) (hget : env.getThrows = false)
    (hmiss : st.get key = none) (h0 : input 0 = .error e) :
    (∀ v, input 1 = .ok v →
      cache key input options env st = ⟨.ok v, st, 2, [.miss key, .errSet]⟩)
    ∧ (∀ e2, input 1 = .error e2 →
      cache key input options env st
        = ⟨input 2, st, 3, [.miss key, .errSet, .errGet]⟩) := by
  constructor
  · intro v h1
    simp [cache, hget, hmiss, h0, h1]
  · intro e2 h1
    simp [cache, hget, hmiss, h0, h1]

theorem cache_miss_producer_error_recovery_witness :
    cache "k" (fun n => if n = 0 then .error "boom" else .ok (.num 7)) none
        ⟨false, false⟩ ⟨[]⟩
      = ⟨.ok (.num 7), ⟨[]⟩, 2, [.miss "k", .errSet]⟩ :=
  (cache_miss_producer_error_recovery "k"
    (fun n => if n = 0 then .error "boom" else .ok (.num 7)) none
    ⟨false, false⟩ ⟨[]⟩ "boom" rfl rfl rfl).1 (.num 7) rfl

/-- Claim C4 is false as universally stated: the inner catch returns
`data || (await input())`, so when the computed value is falsy in
JavaScript (here the number `0`), a throwing `memjs.set` makes `cache`
re-invoke the producer and return that second result (here `5`) instead of
the computed value `0`. -/
theorem cache_set_failure_falsy_counterexample :
    (cache "k" (fun n => if n = 0 then .ok (.num 0) else .ok (.num 5)) none
        ⟨false, true⟩ ⟨[]⟩).ret = .ok (.num 5)
    ∧ (cache "k" (fun n => if n = 0 then .ok (.num 0) else .ok (.num 5)) none
        ⟨false, true⟩ ⟨[]⟩).calls = 2 := ⟨rfl, rfl⟩

/-- Claim C4, amended: if the MISS-path computation succeeds with a truthy
value and the subsequent cache store write throws, `cache` logs the SET
error and still returns the computed value; the write failure itself is
never raised.  (For a falsy computed value the producer is re-invoked and
that second result is returned instead.) -/
theorem cache_set_failure_returns_truthy_value (key : String)
    (input : Nat → Except String JVal) (options : Option Nat) (st : Store)
    (v : JVal) (hmiss : st.get key = none) (h0 : input 0 = .ok v)
    (htruthy : jsTruthy v = true) :
    cache key input options ⟨false, true⟩ st
      = ⟨.ok v, st, 1, [.miss key, .errSet]⟩ := by
  simp [cache, hmiss, h0, htruthy]

theorem cache_set_failure_returns_truthy_value_witness :
    cache "k" (fun _ => .ok (.num 42)) (some 30) ⟨false, true⟩ ⟨[]⟩
      = ⟨.ok (.num 42), ⟨[]⟩, 1, [.miss "k", .errSet]⟩ :=
  cache_set_failure_returns_truthy_value "k" (fun _ => .ok (.num 42))
    (some 30) ⟨[]⟩ (.num 42) rfl rfl rfl

/-- Claim C5: whenever the probe succeeds, the cache key `cacheLatest` uses
is exactly `` `${key}-${id}-${epochMillis(updatedAt)}` `` of the probe's
latest record, and for a fixed prefix two probe records give the same
derived key exactly when both `id` and `updatedAt` agree — so any change to
the latest record's identity or update timestamp yields a different key. -/
theorem cacheLatest_derived_key_characterization (key : String)
    (options options' : Option Nat) (qf qf' : String) (cond cond' : Cond)
    (qrest qrest' : List (String × Cond)) (orm orm' : OrmEnv)
    (cenv cenv' : CacheEnv) (st st' : Store) (r r' : LatestRec)
    (h : orm.findFirstLatest cond = .found r)
    (h' : orm'.findFirstLatest cond' = .found r') :
    (cacheLatest key options ((qf, cond) :: qrest) orm cenv st).usedKey
        = key ++ "-" ++ toString r.id ++ "-" ++ toString r.updatedAt
    ∧ ((cacheLatest key options ((qf, cond) :: qrest) orm cenv st).usedKey
        = (cacheLatest key options' ((qf', cond') :: qrest') orm' cenv' st').usedKey
      ↔ (r.id = r'.id ∧ r.updatedAt = r'.updatedAt)) := by
  have h1 : (cacheLatest key options ((qf, cond) :: qrest) orm cenv st).usedKey
      = derivedKey key r := by
    simp [cacheLatest, h]
  have h2 : (cacheLatest key options' ((qf', cond') :: qrest') orm' cenv' st').usedKey
      = derivedKey key r' := by
    simp [cacheLatest, h']
  refine ⟨by rw [h1]; rfl, ?_⟩
  rw [h1, h2, derivedKey_inj]
  constructor
  · rintro rfl
    exact ⟨rfl, rfl⟩
  · rintro ⟨hi, hu⟩
    cases r
    cases r'
    simp_all

theorem cacheLatest_derived_key_characterization_witness :
    (cacheLatest "posts" none [("findMany", [("isAdmin", .bool true)])]
        ⟨fun _ => .found ⟨34, 16003458234953⟩, fun _ _ _ => .ok .null⟩
        ⟨false, false⟩ ⟨[]⟩).usedKey
      = "posts" ++ "-" ++ toString (34 : Nat) ++ "-" ++ toString (16003458234953 : Nat)
    ∧ ((cacheLatest "posts" none [("findMany", [("isAdmin", .bool true)])]
        ⟨fun _ => .found ⟨34, 16003458234953⟩, fun _ _ _ => .ok .null⟩
        ⟨false, false⟩ ⟨[]⟩).usedKey
      = (cacheLatest "posts" none [("findMany", [("isAdmin", .bool true)])]
        ⟨fun _ => .found ⟨34, 16003458234954⟩, fun _ _ _ => .ok .null⟩
        ⟨false, false⟩ ⟨[]⟩).usedKey
      ↔ ((34 : Nat) = 34 ∧ (16003458234953 : Nat) = 16003458234954)) :=
  cacheLatest_derived_key_characterization "posts" none none "findMany"
    "findMany" [("isAdmin", .bool true)] [("isAdmin", .bool true)] [] []
    ⟨fun _ => .found ⟨34, 16003458234953⟩, fun _ _ _ => .ok .null⟩
    ⟨fun _ => .found ⟨34, 16003458234954⟩, fun _ _ _ => .ok .null⟩
    ⟨false, false⟩ ⟨false, false⟩ ⟨[]⟩ ⟨[]⟩ ⟨34, 16003458234953⟩
    ⟨34, 16003458234954⟩ rfl rfl

/-- Claim C6: if the probe query throws, or finds no record (in which case
the `latest.id` access throws on `null`), `cacheLatest` logs the error and
returns exactly the result of issuing `model[operationName](conditions)`
directly, with the store untouched and no cache log lines — in particular
an empty result set is never cached. -/
theorem cacheLatest_probe_failure_uncached_fallback (key : String)
    (options : Option Nat) (qf : String) (cond : Cond)
    (qrest : List (String × Cond)) (orm : OrmEnv) (cenv : CacheEnv)
    (st : Store) (e : String)
    (h : orm.findFirstLatest cond = .throws e
      ∨ orm.findFirstLatest cond = .empty) :
    cacheLatest key options ((qf, cond) :: qrest) orm cenv st
      = ⟨orm.run qf cond 0, st, 1, key, [.errLatest]⟩ := by
  rcases h with h | h <;> simp [cacheLatest, h]

theorem cacheLatest_probe_failure_uncached_fallback_witness :
    cacheLatest "posts" none [("findMany", [])]
        ⟨fun _ => .empty, fun _ _ _ => .ok (.str "rows")⟩ ⟨false, false⟩ ⟨[]⟩
      = ⟨.ok (.str "rows"), ⟨[]⟩, 1, "posts", [.errLatest]⟩ :=
  cacheLatest_probe_failure_uncached_fallback "posts" none "findMany" []
    [] ⟨fun _ => .empty, fun _ _ _ => .ok (.str "rows")⟩ ⟨false, false⟩ ⟨[]⟩
    "ignored" (Or.inr rfl)

/-- Claim C7: two `cacheLatest` calls with the same key, same query entry,
and probes finding the same latest record use the same derived key; with
the store initially empty at that key and no client failure, the first call
executes the real query once and the second call is served from the cache
store, returning the same value with the real query not executed at all. -/
theorem cacheLatest_second_call_cache_hit (key : String)
    (options options2 : Option Nat) (qf : String) (cond : Cond)
    (qrest qrest2 : List (String × Cond)) (orm orm2 : OrmEnv) (st : Store)
    (r : LatestRec) (v : JVal)
    (h : orm.findFirstLatest cond = .found r)
    (h2 : orm2.findFirstLatest cond = .found r)
    (hmiss : st.get (derivedKey key r) = none)
    (hrun : orm.run qf cond 0 = .ok v) :
    (cacheLatest key options ((qf, cond) :: qrest) orm ⟨false, false⟩ st).ret
        = .ok v
    ∧ (cacheLatest key options ((qf, cond) :: qrest) orm
        ⟨false, false⟩ st).runCalls = 1
    ∧ (cacheLatest key options2 ((qf, cond) :: qrest2) orm2 ⟨false, false⟩
        (cacheLatest key options ((qf, cond) :: qrest) orm
          ⟨false, false⟩ st).store).ret = .ok v
    ∧ (cacheLatest key options2 ((qf, cond) :: qrest2) orm2 ⟨false, false⟩
        (cacheLatest key options ((qf, cond) :: qrest) orm
          ⟨false, false⟩ st).store).runCalls = 0 := by
  have e1 : cacheLatest key options ((qf, cond) :: qrest) orm ⟨false, false⟩ st
      = ⟨.ok v, st.set (derivedKey key r) (stringifyJ v) options, 1,
          derivedKey key r, [.miss (derivedKey key r)]⟩ := by
    simp [cacheLatest, h, cache, hmiss, hrun]
  have e2 : cacheLatest key options2 ((qf, cond) :: qrest2) orm2 ⟨false, false⟩
        (st.set (derivedKey key r) (stringifyJ v) options)
      = ⟨.ok v, st.set (derivedKey key r) (stringifyJ v) options, 0,
          derivedKey key r, [.hit (derivedKey key r)]⟩ := by
    simp [cacheLatest, h2, cache, Store.get_set, parseJ_stringifyJ]
  rw [e1]
  exact ⟨rfl, rfl, by rw [e2], by rw [e2]⟩

theorem cacheLatest_second_call_cache_hit_witness :
    (cacheLatest "posts" none [("findMany", [("isAdmin", .bool true)])]
        ⟨fun _ => .found ⟨34, 1600⟩, fun _ _ _ => .ok (.str "rows")⟩
        ⟨false, false⟩ ⟨[]⟩).ret = .ok (.str "rows")
    ∧ (cacheLatest "posts" none [("findMany", [("isAdmin", .bool true)])]
        ⟨fun _ => .found ⟨34, 1600⟩, fun _ _ _ => .ok (.str "rows")⟩
        ⟨false, false⟩ ⟨[]⟩).runCalls = 1
    ∧ (cacheLatest "posts" none [("findMany", [("isAdmin", .bool true)])]
        ⟨fun _ => .found ⟨34, 1600⟩, fun _ _ _ => .error "must not run"⟩
        ⟨false, false⟩
        (cacheLatest "posts" none [("findMany", [("isAdmin", .bool true)])]
          ⟨fun _ => .found ⟨34, 1600⟩, fun _ _ _ => .ok (.str "rows")⟩
          ⟨false, false⟩ ⟨[]⟩).store).ret = .ok (.str "rows")
    ∧ (cacheLatest "posts" none [("findMany", [("isAdmin", .bool true)])]
        ⟨fun _ => .found ⟨34, 1600⟩, fun _ _ _ => .error "must not run"⟩
        ⟨false, false⟩
        (cacheLatest "posts" none [("findMany", [("isAdmin", .bool true)])]
          ⟨fun _ => .found ⟨34, 1600⟩, fun _ _ _ => .ok (.str "rows")⟩
          ⟨false, false⟩ ⟨[]⟩).store).runCalls = 0 :=
  cacheLatest_second_call_cache_hit "posts" none none "findMany"
    [("isAdmin", .bool true)] [] []
    ⟨fun _ => .found ⟨34, 1600⟩, fun _ _ _ => .ok (.str "rows")⟩
    ⟨fun _ => .found ⟨34, 1600⟩, fun _ _ _ => .error "must not run"⟩
    ⟨[]⟩ ⟨34, 1600⟩ (.str "rows") rfl rfl rfl rfl

/-- Claim C8 is false on the code: the fallback direct call
`model[operationName](conditions)` sits inside the `catch` block, where a
thrown error is not caught by that same `try`/`catch`.  Concretely, with a
throwing probe and a direct call that fails, `cacheLatest` propagates the
direct call's error to the caller instead of catching it. -/
theorem cacheLatest_fallback_unguarded_counterexample :
    (cacheLatest "posts" none [("findMany", [])]
        ⟨fun _ => .throws "probe down", fun _ _ _ => .error "db down"⟩
        ⟨false, false⟩ ⟨[]⟩).ret = .error "db down" := rfl

/-- Claim C8, amended: the fallback direct call in `cacheLatest`'s catch
block is not guarded: when the probe fails and the direct call
`model[operationName](conditions)` itself fails, that failure propagates to
the caller. -/
theorem cacheLatest_fallback_error_propagates (key : String)
    (options : Option Nat) (qf : String) (cond : Cond)
    (qrest : List (String × Cond)) (orm : OrmEnv) (cenv : CacheEnv)
    (st : Store) (e e2 : String)
    (h : orm.findFirstLatest cond = .throws e)
    (hrun : orm.run qf cond 0 = .error e2) :
    (cacheLatest key options ((qf, cond) :: qrest) orm cenv st).ret
      = .error e2 := by
  simp [cacheLatest, h, hrun]

theorem cacheLatest_fallback_error_propagates_witness :
    (cacheLatest "posts" none [("findMany", [])]
        ⟨fun _ => .throws "probe down", fun _ _ _ => .error "db down"⟩
        ⟨true, false⟩ ⟨[]⟩).ret = .error "db down" :=
  cacheLatest_fallback_error_propagates "posts" none "findMany" [] []
    ⟨fun _ => .throws "probe down", fun _ _ _ => .error "db down"⟩
    ⟨true, false⟩ ⟨[]⟩ "probe down" "db down" rfl rfl

/-- Claim C9: the version reporter processes the workspace packages
strictly one at a time in their given order (its output is the pointwise
map of the per-package step over the package list), and a package whose
registry query or parse fails contributes exactly one error line while all
other packages are still processed: one failure never aborts the rest. -/
theorem versionReporter_per_package_isolation
    (info : String → Except String PkgInfo) (pre post : List String)
    (p m : String) (h : info p = .error m) :
    getLatestVersionsMain info (pre ++ p :: post)
      = getLatestVersionsMain info pre
        ++ .fetchError p m :: getLatestVersionsMain info post
    ∧ getLatestVersionsMain info (pre ++ p :: post)
      = (pre ++ p :: post).map (processPackage info) := by
  have hmap : ∀ pkgs : List String,
      getLatestVersionsMain info pkgs = pkgs.map (processPackage info) := by
    intro pkgs
    induction pkgs with
    | nil => rfl
    | cons q qs ih => simp [getLatestVersionsMain, ih]
  have herr : processPackage info p = .fetchError p m := by
    simp [processPackage, h]
  refine ⟨?_, hmap _⟩
  rw [hmap, hmap, hmap, List.map_append, List.map_cons, herr]

theorem versionReporter_per_package_isolation_witness :
    getLatestVersionsMain
        (fun q => if q = "b" then .error "boom"
                  else .ok ⟨some ⟨some "7.0.0-rc.1"⟩⟩)
        (["a"] ++ "b" :: ["c"])
      = getLatestVersionsMain
          (fun q => if q = "b" then .error "boom"
                    else .ok ⟨some ⟨some "7.0.0-rc.1"⟩⟩) ["a"]
        ++ .fetchError "b" "boom"
          :: getLatestVersionsMain
              (fun q => if q = "b" then .error "boom"
                        else .ok ⟨some ⟨some "7.0.0-rc.1"⟩⟩) ["c"] :=
  (versionReporter_per_package_isolation
    (fun q => if q = "b" then .error "boom"
              else .ok ⟨some ⟨some "7.0.0-rc.1"⟩⟩)
    ["a"] ["c"] "b" "boom" rfl).1

/-- Claim C10: `cacheLatest` consults only the first entry of the query
mapping — `Object.keys(query)[0]` and its value — so a call with extra
entries behaves exactly like the call with only the first entry, for every
store, environment and option; no validation rejects multi-entry
mappings. -/
theorem cacheLatest_uses_only_first_query_entry (key : String)
    (options : Option Nat) (entry : String × Cond)
    (qrest : List (String × Cond)) (orm : OrmEnv) (cenv : CacheEnv)
    (st : Store) :
    cacheLatest key options (entry :: qrest) orm cenv st
      = cacheLatest key options [entry] orm cenv st := rfl
